import Mathlib

/-!
Shallow embedding of `share/paint/i18n.py`.

The script writes the literal `char * stringlst = [` to standard output,
then for each command-line argument parses the file as XML with
`minidom.parse`, collects every element whose tag name is `pattern`
(in document order), and for each such element reads the attribute
`inkscape:stockid`; if that value is the empty string it reads
`inkscape:label` instead; if the resulting value is non-empty it writes
`N_("<value>"),` to standard output.  After the loop it writes `];`.
An uncaught parse failure terminates the process with exit status 1,
leaving whatever was already written on the stream.
-/

namespace PaintI18n

/-- An XML element as exposed by `xml.dom.minidom`: a tag name, an
attribute list (attribute names are unique in well-formed XML) and the
child elements in document order. -/
inductive Element : Type where
  | node (tagName : String) (attrs : List (String × String)) (children : List Element)

def Element.tagName : Element → String
  | .node t _ _ => t

def Element.attrs : Element → List (String × String)
  | .node _ a _ => a

def Element.children : Element → List Element
  | .node _ _ c => c

/-- Value of `Element.getAttribute(name)` in `minidom`: the value of the
attribute when present, and the empty string when the attribute is absent. -/
def getAttribute (e : Element) (name : String) : String :=
  match e.attrs.find? (fun p => p.1 == name) with
  | some p => p.2
  | none => ""

mutual

/-- Elements matching a tag name, in document order (the node itself when
its tag matches, then the matches inside its children left to right), as
computed by `getElementsByTagName`. -/
def elementsByTagName (name : String) : Element → List Element
  | .node t a c =>
      (if t = name then [Element.node t a c] else []) ++ elementsByTagNameList name c

def elementsByTagNameList (name : String) : List Element → List Element
  | [] => []
  | e :: es => elementsByTagName name e ++ elementsByTagNameList name es

end

/-- A parsed XML document: `minidom.parse` yields a tree rooted at the
document element. -/
structure Document : Type where
  root : Element

/-- Matches of `doc.getElementsByTagName(name)`: every element of the
document (the root included) with the given tag name, in document order. -/
def Document.getElementsByTagName (d : Document) (name : String) : List Element :=
  elementsByTagName name d.root

/-- Identifier selected for one `pattern` element by the loop body: the
value of the attribute `inkscape:stockid`, replaced by the value of the
attribute `inkscape:label` when it is the empty string. -/
def stockidOf (e : Element) : String :=
  let stockid := getAttribute e "inkscape:stockid"
  if stockid = "" then getAttribute e "inkscape:label" else stockid

/-- Chunks written to standard output for one `pattern` element: the
single chunk `N_("<stockid>"),` when the selected identifier is
non-empty, and nothing otherwise. -/
def elementChunks (e : Element) : List String :=
  if stockidOf e ≠ "" then ["N_(\"" ++ stockidOf e ++ "\"),"] else []

/-- Chunks written to standard output while processing one parsed
document: the chunks of its `pattern` elements, in document order. -/
def docChunks (d : Document) : List String :=
  (d.getElementsByTagName "pattern").flatMap elementChunks

/-- Concatenation of a list of written chunks into the output stream. -/
def concatChunks : List String → String
  | [] => ""
  | s :: rest => s ++ concatChunks rest

/-- Opening literal written before any file is processed. -/
def openingLit : String := "char * stringlst = ["

/-- Closing literal written after the loop over the argument files. -/
def closingLit : String := "];"

/-- Exit status of the process: number and standard-output stream. -/
structure RunResult : Type where
  stdout : String
  exitCode : Nat
deriving DecidableEq

/-- Outcome of `minidom.parse` for one argument file: `some d` when the
file exists, is readable and is well-formed XML, `none` when parsing
raises (missing, unreadable or malformed file). -/
abbrev ParseOutcome : Type := Option Document

/-- Loop over the argument files, threading the output already written.
A parse failure is an uncaught exception: the loop stops, nothing more is
written and the process exits with status 1.  When every file parses the
closing literal is written and the process exits with status 0. -/
def runGo (out : String) : List ParseOutcome → RunResult
  | [] => ⟨out ++ closingLit, 0⟩
  | none :: _ => ⟨out, 1⟩
  | some d :: rest => runGo (out ++ concatChunks (docChunks d)) rest

/-- Whole run of the script on the parse outcomes of its argument files. -/
def run (files : List ParseOutcome) : RunResult :=
  runGo openingLit files

/-! ### Sample inputs used to instantiate the theorems -/

/-- A `pattern` element whose attribute `inkscape:stockid` is `foo`. -/
def eFoo : Element := .node "pattern" [("inkscape:stockid", "foo")] []

/-- A document whose only element is `eFoo`. -/
def dFoo : Document := ⟨eFoo⟩

/-- A `pattern` element with an empty `inkscape:stockid` and with
`inkscape:label` equal to `bar`. -/
def eBar : Element := .node "pattern" [("inkscape:stockid", ""), ("inkscape:label", "bar")] []

/-- A document whose only element is `eBar`. -/
def dBar : Document := ⟨eBar⟩

/-- A `pattern` element carrying no attributes at all. -/
def eBare : Element := .node "pattern" [] []

/-- A document with no `pattern` element anywhere. -/
def dPlain : Document := ⟨.node "svg" [] []⟩

/-- A `pattern` element whose selected identifier contains a double
quote, a backslash, a comma and both bracket characters. -/
def eRaw : Element := .node "pattern" [("inkscape:stockid", "a\"b\\c,[]")] []

/-! ### General lemmas about the embedding -/

theorem concatChunks_append (a b : List String) :
    concatChunks (a ++ b) = concatChunks a ++ concatChunks b := by
  induction a with
  | nil => simp [concatChunks]
  | cons s rest ih => simp [concatChunks, ih, String.append_assoc]

theorem runGo_map_some (out : String) (docs : List Document) :
    runGo out (docs.map some) =
      ⟨out ++ concatChunks (docs.flatMap docChunks) ++ closingLit, 0⟩ := by
  induction docs generalizing out with
  | nil => simp [runGo, concatChunks]
  | cons d rest ih =>
      simp [runGo, ih, concatChunks_append, String.append_assoc]

theorem runGo_fail (out : String) (docs : List Document)
    (rest : List ParseOutcome) :
    runGo out (docs.map some ++ none :: rest) =
      ⟨out ++ concatChunks (docs.flatMap docChunks), 1⟩ := by
  induction docs generalizing out with
  | nil => simp [runGo, concatChunks]
  | cons d ds ih =>
      simp [runGo, ih, concatChunks_append, String.append_assoc]

theorem elementChunks_shape (e : Element) :
    ∀ t ∈ elementChunks e, ∃ s, s ≠ "" ∧ t = "N_(\"" ++ s ++ "\")," := by
  intro t ht
  simp only [elementChunks] at ht
  by_cases h : stockidOf e ≠ ""
  · rw [if_pos h] at ht
    rw [List.mem_singleton] at ht
    subst ht
    exact ⟨stockidOf e, h, rfl⟩
  · rw [if_neg h] at ht
    exact absurd ht (List.not_mem_nil t)

theorem docChunks_shape (d : Document) :
    ∀ t ∈ docChunks d, ∃ s, s ≠ "" ∧ t = "N_(\"" ++ s ++ "\")," := by
  intro t ht
  rw [docChunks] at ht
  rcases List.mem_flatMap.mp ht with ⟨e, _, hte⟩
  exact elementChunks_shape e t hte

theorem flatMapDocChunks_shape (docs : List Document) :
    ∀ t ∈ docs.flatMap docChunks, ∃ s, s ≠ "" ∧ t = "N_(\"" ++ s ++ "\")," := by
  intro t ht
  rcases List.mem_flatMap.mp ht with ⟨d, _, htd⟩
  exact docChunks_shape d t htd

theorem token_ends_comma (s : String) :
    "N_(\"" ++ s ++ "\")," = ("N_(\"" ++ s ++ "\")") ++ "," := by
  have h1 : ("\")," : String) = "\")" ++ "," := by decide
  rw [h1, ← String.append_assoc]

theorem concat_ends_comma (l : List String) :
    (∀ t ∈ l, ∃ s, t = s ++ ",") → l ≠ [] → ∃ p, concatChunks l = p ++ "," := by
  induction l with
  | nil => intro _ hne; exact absurd rfl hne
  | cons t rest ih =>
      intro h _
      rcases h t (List.mem_cons_self t rest) with ⟨s, hs⟩
      cases rest with
      | nil =>
          refine ⟨s, ?_⟩
          simp only [concatChunks]
          rw [String.append_empty, hs]
      | cons u us =>
          rcases ih (fun x hx => h x (List.mem_cons_of_mem t hx)) (by simp) with ⟨p, hp⟩
          refine ⟨t ++ p, ?_⟩
          rw [show concatChunks (t :: u :: us) = t ++ concatChunks (u :: us) from rfl,
            hp, ← String.append_assoc]

theorem append_comma_closing (x : String) :
    x ++ "," ++ closingLit = x ++ ",];" := by
  rw [String.append_assoc]
  simp only [closingLit]
  rw [show ("," ++ "];" : String) = ",];" from by decide]

/-! ### The claims -/

/-- C1: when every argument file parses, the complete standard-output
stream is exactly the opening literal, then the emitted tokens, then the
closing literal, with no trailing newline and nothing else written, and
the exit status is 0. -/
theorem c1_success_output (docs : List Document) :
    run (docs.map some) =
      ⟨"char * stringlst = [" ++ concatChunks (docs.flatMap docChunks) ++ "];", 0⟩ :=
  runGo_map_some openingLit docs

/-- C2: the identifier emitted for a `pattern` element is the value of
`inkscape:stockid` when that value is non-empty, and the value of
`inkscape:label` otherwise; an element whose primary attribute is empty
and whose fallback attribute is `bar` yields exactly the token
`N_("bar"),`. -/
theorem c2_identifier_fallback (e : Element) :
    (getAttribute e "inkscape:stockid" ≠ "" →
       stockidOf e = getAttribute e "inkscape:stockid") ∧
    (getAttribute e "inkscape:stockid" = "" →
       stockidOf e = getAttribute e "inkscape:label") ∧
    (stockidOf e ≠ "" → elementChunks e = ["N_(\"" ++ stockidOf e ++ "\"),"]) ∧
    elementChunks eBar = ["N_(\"bar\"),"] := by
  refine ⟨?_, ?_, ?_, ?_⟩
  · intro h
    simp only [stockidOf]
    rw [if_neg h]
  · intro h
    simp only [stockidOf]
    rw [if_pos h]
  · intro h
    simp only [elementChunks]
    rw [if_pos h]
  · decide

/-- Witness for C2 at the element `eBar`. -/
theorem c2_identifier_fallback_witness :
    getAttribute eBar "inkscape:stockid" = "" ∧
      stockidOf eBar = getAttribute eBar "inkscape:label" :=
  ⟨by decide, (c2_identifier_fallback eBar).2.1 (by decide)⟩

/-- C3: a parse failure terminates the run with the non-zero exit
status 1, leaving on standard output exactly the opening literal and the
tokens of the files already processed, the closing literal never being
written; when every file parses the exit status is 0. -/
theorem c3_parse_failure (docs : List Document) (rest : List ParseOutcome) :
    run (docs.map some ++ none :: rest) =
      ⟨openingLit ++ concatChunks (docs.flatMap docChunks), 1⟩ ∧
    (run (docs.map some)).exitCode = 0 := by
  refine ⟨runGo_fail openingLit docs rest, ?_⟩
  show (runGo openingLit (docs.map some)).exitCode = 0
  rw [runGo_map_some]

/-- C4: an element whose primary and fallback attributes are both absent
or empty emits no token, and every token appearing in the output of a
run wraps a non-empty identifier. -/
theorem c4_nonempty_only (e : Element) (docs : List Document) :
    (getAttribute e "inkscape:stockid" = "" →
       getAttribute e "inkscape:label" = "" → elementChunks e = []) ∧
    ∀ t ∈ docs.flatMap docChunks, ∃ s, s ≠ "" ∧ t = "N_(\"" ++ s ++ "\")," := by
  refine ⟨?_, flatMapDocChunks_shape docs⟩
  intro hp hf
  have hs : stockidOf e = "" := by
    simp [stockidOf, hp, hf]
  simp only [elementChunks, hs]
  rw [if_neg (fun hc => hc rfl)]

/-- Witness for C4 at the attribute-free element `eBare` and the
document `dFoo`. -/
theorem c4_nonempty_only_witness :
    elementChunks eBare = [] ∧
      ∃ s, s ≠ "" ∧ "N_(\"foo\")," = "N_(\"" ++ s ++ "\")," :=
  ⟨(c4_nonempty_only eBare [dFoo]).1 (by decide) (by decide),
   (c4_nonempty_only eBare [dFoo]).2 "N_(\"foo\")," (by decide)⟩

/-- C5: tokens are emitted in input order: in a run over an earlier
group of files followed by a later group, every token of the earlier
group precedes every token of the later group, and within each file the
tokens follow the document order of the matching elements. -/
theorem c5_input_order (docs1 docs2 : List Document) :
    (run ((docs1 ++ docs2).map some)).stdout =
      openingLit ++ (concatChunks (docs1.flatMap docChunks) ++
        concatChunks (docs2.flatMap docChunks)) ++ closingLit := by
  show (runGo openingLit ((docs1 ++ docs2).map some)).stdout = _
  rw [runGo_map_some, List.flatMap_append, concatChunks_append]

/-- C6: a comma is appended after every token, the last included:
whenever a run over successfully parsed files emits at least one token,
the character written immediately before the closing literal is a
comma. -/
theorem c6_trailing_comma (docs : List Document)
    (h : docs.flatMap docChunks ≠ []) :
    ∃ p, (run (docs.map some)).stdout = p ++ ",];" := by
  have hall : ∀ t ∈ docs.flatMap docChunks, ∃ s, t = s ++ "," := by
    intro t ht
    rcases flatMapDocChunks_shape docs t ht with ⟨s, _, hts⟩
    exact ⟨"N_(\"" ++ s ++ "\")", by rw [hts, token_ends_comma]⟩
  rcases concat_ends_comma (docs.flatMap docChunks) hall h with ⟨p, hp⟩
  refine ⟨openingLit ++ p, ?_⟩
  have hrun : (run (docs.map some)).stdout =
      openingLit ++ concatChunks (docs.flatMap docChunks) ++ closingLit := by
    show (runGo openingLit (docs.map some)).stdout = _
    rw [runGo_map_some]
  rw [hrun, hp, ← String.append_assoc, append_comma_closing]

/-- Witness for C6 at the single document `dFoo`. -/
theorem c6_trailing_comma_witness :
    [dFoo].flatMap docChunks ≠ [] ∧
      ∃ p, (run ([dFoo].map some)).stdout = p ++ ",];" :=
  ⟨by decide, c6_trailing_comma [dFoo] (by decide)⟩

/-- C7: a run whose documents contain no element with tag name
`pattern` writes exactly the opening literal followed immediately by the
closing literal. -/
theorem c7_no_matches (docs : List Document)
    (h : ∀ d ∈ docs, d.getElementsByTagName "pattern" = []) :
    run (docs.map some) = ⟨"char * stringlst = [];", 0⟩ := by
  have hflat : docs.flatMap docChunks = [] := by
    refine List.flatMap_eq_nil_iff.mpr ?_
    intro d hd
    rw [docChunks, h d hd]
    rfl
  show runGo openingLit (docs.map some) = _
  rw [runGo_map_some, hflat]
  decide

/-- Witness for C7 at the pattern-free document `dPlain`. -/
theorem c7_no_matches_witness :
    run ([dPlain].map some) = ⟨"char * stringlst = [];", 0⟩ :=
  c7_no_matches [dPlain] (by
    intro d hd
    rw [List.mem_singleton] at hd
    subst hd
    rfl)

/-- C8: a run over one document whose only `pattern` element has the
attribute `inkscape:stockid` equal to `foo` writes exactly one token,
namely `N_("foo"),`. -/
theorem c8_single_foo (d : Document) (e : Element)
    (h : d.getElementsByTagName "pattern" = [e])
    (hfoo : getAttribute e "inkscape:stockid" = "foo") :
    run [some d] = ⟨"char * stringlst = [N_(\"foo\"),];", 0⟩ := by
  have hs : stockidOf e = "foo" := by
    simp only [stockidOf, hfoo]
    rw [if_neg (by decide)]
  have hd : docChunks d = ["N_(\"foo\"),"] := by
    rw [docChunks, h]
    simp only [List.flatMap_cons, List.flatMap_nil, List.append_nil]
    simp only [elementChunks, hs]
    rw [if_pos (by decide)]
    decide
  show runGo openingLit [some d] = _
  simp only [runGo]
  rw [hd]
  decide

/-- Witness for C8 at the document `dFoo`. -/
theorem c8_single_foo_witness :
    run [some dFoo] = ⟨"char * stringlst = [N_(\"foo\"),];", 0⟩ :=
  c8_single_foo dFoo eFoo rfl rfl

/-- C9: a run with zero file arguments does not fail: it writes exactly
the opening literal followed by the closing literal and exits with
status 0. -/
theorem c9_no_arguments : run [] = ⟨"char * stringlst = [];", 0⟩ := by
  decide

/-- C10: the selected identifier is embedded in the token verbatim, with
no escaping: the token is the characters `N_("`, then the identifier
characters unmodified (double quotes, backslashes, commas and brackets
included), then the characters `"),`. -/
theorem c10_verbatim (e : Element) (h : stockidOf e ≠ "") :
    elementChunks e = ["N_(\"" ++ stockidOf e ++ "\"),"] ∧
    ("N_(\"" ++ stockidOf e ++ "\"),").data =
      "N_(\"".data ++ (stockidOf e).data ++ "\"),".data := by
  refine ⟨?_, ?_⟩
  · simp only [elementChunks]
    rw [if_pos h]
  · simp only [String.data_append]

/-- Witness for C10 at the element `eRaw`, whose identifier holds a
double quote, a backslash, a comma and both brackets. -/
theorem c10_verbatim_witness :
    stockidOf eRaw ≠ "" ∧
      (elementChunks eRaw = ["N_(\"" ++ stockidOf eRaw ++ "\"),"] ∧
       ("N_(\"" ++ stockidOf eRaw ++ "\"),").data =
         "N_(\"".data ++ (stockidOf eRaw).data ++ "\"),".data) :=
  ⟨by decide, c10_verbatim eRaw (by decide)⟩

end PaintI18n
